import Mathlib

/-!
Verification of the YAML/JSON to S-expression converter (yaml_to_sexpr.py).

The Python program is shallowly embedded: the parsed document tree is the
inductive type Val; the string-classifier regexes are embedded as executable
predicates over character lists; the recursive encoder convert, the pretty
printer format_sexpr, the environment substitution and the loader and CLI
driver are embedded as total Lean functions over the same data.

Modelling conventions:
- Python strings are Lean String values, handled through their character
  list s.data.
- The regex character classes backslash-d and backslash-w are modelled as
  ASCII digit and ASCII word characters (Char.isDigit, isWordChar); the
  inputs of interest in this development are ASCII.
- re.match with an end anchor in Python also matches immediately before one
  trailing newline character; this is embedded faithfully via
  stripTrailingNewline.
- The process environment is modelled as an injected lookup function
  (String to Option String), as the specification prescribes.
- Floating point scalars are outside the embedding (they are rendered by
  str(obj) like integers and play no role in any claim).
-/

namespace YamlToSexpr

/-- ASCII word character, the model of the regex class [A-Za-z0-9_]
(Python backslash-w over the ASCII range). -/
def isWordChar (c : Char) : Bool :=
  c.isAlpha || c.isDigit || c = '_'

/-- Python whitespace as recognized by str.strip(). -/
def wsChar (c : Char) : Bool :=
  c = ' ' || c = '\t' || c = '\n' || c = '\r' || c = '\x0b' || c = '\x0c'

/-- Embedding of Python str.strip(): remove leading and trailing whitespace. -/
def pyStrip (l : List Char) : List Char :=
  ((l.dropWhile wsChar).reverse.dropWhile wsChar).reverse

/-- Remove one trailing newline if present.  A Python regex end anchor
matches at the end of the string or just before a single trailing
newline, so re.match of an anchored pattern succeeds exactly when the
pattern matches stripTrailingNewline of the input. -/
def stripTrailingNewline (l : List Char) : List Char :=
  if l.getLast? = some '\n' then l.dropLast else l

/-- Embeds is_iso_date: re.match of the anchored pattern four digits,
hyphen, two digits, hyphen, two digits (with Python end-anchor
semantics, hence the stripTrailingNewline). -/
def is_iso_date (s : String) : Bool :=
  match stripTrailingNewline s.data with
  | [y1, y2, y3, y4, h1, m1, m2, h2, d1, d2] =>
    y1.isDigit && y2.isDigit && y3.isDigit && y4.isDigit && h1 = '-' &&
    m1.isDigit && m2.isDigit && h2 = '-' && d1.isDigit && d2.isDigit
  | _ => false

/-- Per-character escaping action of escape_string.  The Python source
chains s.replace(backslash, double backslash).replace(quote, backslash
quote); the first pass doubles every backslash and introduces no quote
character, and the second pass rewrites exactly the original quote
characters, so the composite acts independently on each original
character as below. -/
def escChar (c : Char) : List Char :=
  if c = '\\' then ['\\', '\\']
  else if c = '"' then ['\\', '"']
  else [c]

/-- Embeds escape_string: escape backslashes and double quotes. -/
def escape_string (s : String) : String :=
  String.mk ((s.data.map escChar).flatten)

/-- First list is a prefix of the second (executable). -/
def leadsWith : List Char → List Char → Bool
  | [], _ => true
  | _ :: _, [] => false
  | p :: ps, c :: cs => p = c && leadsWith ps cs

/-- Embedding of the Python substring test (pat in s) on character lists. -/
def containsSub (pat : List Char) : List Char → Bool
  | [] => leadsWith pat []
  | c :: cs => leadsWith pat (c :: cs) || containsSub pat cs

/-- Anchored match of one or more word characters (the pattern used by
is_symbolic_identifier), with Python end-anchor semantics. -/
def pyWordFullMatch (l : List Char) : Bool :=
  match stripTrailingNewline l with
  | [] => false
  | c :: cs => (c :: cs).all isWordChar

/-- Embeds is_symbolic_identifier: entirely word characters and
containing at least one digit (re.search of backslash-d). -/
def is_symbolic_identifier (s : String) : Bool :=
  pyWordFullMatch s.data && s.data.any Char.isDigit

/-- Embedding of Python str.split(sep) for a single-character separator. -/
def splitOnChar (sep : Char) : List Char → List (List Char)
  | [] => [[]]
  | c :: cs =>
    if c = sep then [] :: splitOnChar sep cs
    else
      match splitOnChar sep cs with
      | [] => [[c]]
      | w :: ws => (c :: w) :: ws

/-- Embeds the Python format specifier 02d: decimal with zero padding
to width two. -/
def pad2 (n : Nat) : String :=
  if n < 10 then "0" ++ toString n else toString n

/-- The date rendering of a string that passed is_iso_date:
y, m, d = obj.split("-") followed by the make-date template. -/
def dateStringForm (s : String) : String :=
  match splitOnChar '-' s.data with
  | [y, m, d] =>
    "(make-date " ++ (String.mk y ++ (" " ++ (String.mk m ++ (" " ++ (String.mk d ++ ")")))))
  | _ => ""

/-- The generic value tree produced by YAML/JSON parsing: mappings keep
their stored key order, sequences are ordered, scalars carry their
Python type.  datetime values (datetime.datetime, a subclass of the
date type in Python) are a separate constructor carrying the discarded
time of day, so the isinstance dispatch of convert can be stated
faithfully. -/
inductive Val where
  | str (s : String)
  | int (n : Int)
  | bool (b : Bool)
  | null
  | date (y m d : Nat)
  | datetime (y m d hh mi ss : Nat)
  | list (xs : List Val)
  | dict (entries : List (String × Val))

mutual

/-- Embeds convert: recursively render a value tree to S-expression text.
The branch order mirrors the isinstance chain of the source: dict, list,
datetime.date (which a datetime.datetime instance also satisfies), str,
None, bool, numeric fallback. -/
def convert (obj : Val) (pfx : String) (parent_key : Option String) : String :=
  match obj with
  | .dict entries =>
    let sep := match parent_key with
      | none => "\n"
      | some _ => " "
    String.intercalate sep (convertPairs entries pfx)
  | .list xs =>
    "(\n" ++ (String.intercalate "\n" (convertItems xs pfx) ++ ")")
  | .date y m d =>
    "(make-date " ++ (toString y ++ (" " ++ (pad2 m ++ (" " ++ (pad2 d ++ ")")))))
  | .datetime y m d _ _ _ =>
    "(make-date " ++ (toString y ++ (" " ++ (pad2 m ++ (" " ++ (pad2 d ++ ")")))))
  | .str s =>
    if is_iso_date s then dateStringForm s
    else if containsSub ['{', '{'] s.data && containsSub ['}', '}'] s.data then
      "\"" ++ (escape_string s ++ "\"")
    else if is_symbolic_identifier s then "\x27" ++ s
    else "\"" ++ (escape_string s ++ "\"")
  | .null => "\x27nil"
  | .bool b => if b then "#t" else "#f"
  | .int n => toString n

/-- The loop body of the dict branch of convert: one form
(pfx:key value) per entry, in stored order; each value is converted
with its key as parent_key. -/
def convertPairs (entries : List (String × Val)) (pfx : String) : List String :=
  match entries with
  | [] => []
  | (k, v) :: rest =>
    ("(" ++ (pfx ++ (":" ++ (k ++ (" " ++ (convert v pfx (some k) ++ ")")))))) ::
      convertPairs rest pfx

/-- The loop body of the list branch of convert: one form
(pfx:item value) per element; the recursive call passes no parent key
(the Python call site omits the parent_key argument). -/
def convertItems (xs : List Val) (pfx : String) : List String :=
  match xs with
  | [] => []
  | v :: rest =>
    ("(" ++ (pfx ++ (":item " ++ (convert v pfx none ++ ")")))) :: convertItems rest pfx

end

/-- Indentation emitted by the pretty printer: depth times the indent
width many spaces.  Python computes a possibly negative product and a
negative repetition count yields the empty string, hence the Int depth
and the clamping toNat. -/
def indentSpaces (ind : Nat) (depth : Int) : List Char :=
  List.replicate (depth * (ind : Int)).toNat ' '

/-- The character loop of format_sexpr.  State: remaining input, the
integer nesting depth, the pending token buffer, and the accumulated
output (Python appends string pieces to a list and joins them at the
end; concatenating as we go is the same).  A pending token is flushed
stripped of surrounding whitespace: with no prefix before an opening
parenthesis, with one leading space before a closing parenthesis or at
a literal newline; a token whose stripped form is empty is not flushed
and, as in the source, the buffer is then not cleared. -/
def fmtLoop (ind : Nat) : List Char → Int → List Char → List Char → List Char
  | [], _, _, acc => acc
  | c :: cs, depth, token, acc =>
    if c = '(' then
      let t := pyStrip token
      if t = [] then
        fmtLoop ind cs (depth + 1) token (acc ++ ('\n' :: indentSpaces ind depth ++ ['(']))
      else
        fmtLoop ind cs (depth + 1) [] (acc ++ (t ++ ('\n' :: indentSpaces ind depth ++ ['('])))
    else if c = ')' then
      let t := pyStrip token
      if t = [] then
        fmtLoop ind cs (depth - 1) token (acc ++ [')'])
      else
        fmtLoop ind cs (depth - 1) [] (acc ++ (' ' :: t ++ [')']))
    else if c = '\n' then
      let t := pyStrip token
      if t = [] then
        fmtLoop ind cs depth token (acc ++ ('\n' :: indentSpaces ind depth))
      else
        fmtLoop ind cs depth [] (acc ++ (' ' :: t ++ ('\n' :: indentSpaces ind depth)))
    else
      fmtLoop ind cs depth (token ++ [c]) acc

/-- Embeds format_sexpr: pretty-print with indentation proportional to
parenthesis depth, respecting explicit newlines; the joined output is
stripped of leading and trailing whitespace. -/
def format_sexpr (expr : String) (ind : Nat) : String :=
  String.mk (pyStrip (fmtLoop ind expr.data 0 [] []))

mutual

/-- Scanner behind substitute_env_variables.  Walks the raw text; on a
dollar-brace opener it hands over to substName.  The regular expression
engine of re.sub scans left to right and resumes after each match or one
character past each failed attempt, which this recursion mirrors. -/
def substCore (env : String → Option String) : List Char → List Char
  | [] => []
  | '$' :: '{' :: rest => substName env rest []
  | c :: cs => c :: substCore env cs
termination_by l => (l.length, 0)

/-- Name scanner for one dollar-brace occurrence: accName holds the word
characters read so far, reversed.  On a closing brace after at least one
word character the variable value (empty string when unset) is
substituted; otherwise the consumed text is emitted literally and
scanning resumes at the offending character, which is where the regex
engine can first restart a match. -/
def substName (env : String → Option String) : List Char → List Char → List Char
  | [], accName => '$' :: '{' :: accName.reverse
  | c :: cs, accName =>
    if isWordChar c then substName env cs (c :: accName)
    else if c = '}' then
      match accName with
      | [] => '$' :: '{' :: substCore env (c :: cs)
      | a :: as => ((env (String.mk (a :: as).reverse)).getD "").data ++ substCore env cs
    else '$' :: '{' :: (accName.reverse ++ substCore env (c :: cs))
termination_by l _ => (l.length, 1)

end

/-- Embeds substitute_env_variables: replace every occurrence of a
dollar-brace NAME brace token by the value of the environment variable
NAME, or the empty string when unset; the environment is an injected
lookup function. -/
def substitute_env_variables (env : String → Option String) (content : String) : String :=
  String.mk (substCore env content.data)

/-- Embeds load_data.  File reading and yaml.safe_load_all are external
effects, modelled as the raw file content and an injected parser that
returns the list of parsed documents or a parse error.  The format
condition mirrors the source: parse when fmt equals yaml or when fmt is
absent and the file suffix is .yaml or .yml; otherwise raise ValueError
with the unsupported-format message.  A single document is returned
bare, several documents as a list, and subscripting an empty document
list raises. -/
def load_data (parseAll : String → Except String (List Val)) (raw : String)
    (fmtArg : Option String) (suffix : String) (enableEnv : Bool)
    (env : String → Option String) : Except String Val :=
  let raw2 := if enableEnv then substitute_env_variables env raw else raw
  if fmtArg = some "yaml" ∨ (fmtArg = none ∧ (suffix = ".yaml" ∨ suffix = ".yml")) then
    match parseAll raw2 with
    | .error e => .error e
    | .ok [] => .error "IndexError: list index out of range"
    | .ok [d] => .ok d
    | .ok ds => .ok (.list ds)
  else
    .error "Unsupported format or missing format flag."

/-- Is this value a mapping (isinstance(d, dict))? -/
def isDictVal : Val → Bool
  | .dict _ => true
  | _ => false

/-- The top-level wrapping of main: a list all of whose elements are
mappings is encoded document by document, each parenthesized, space
joined, inside one enclosing pair of parentheses; anything else is
encoded once and wrapped in one pair of parentheses.  convert is called
with its default prefix yaml and no parent key, as at the call sites in
main. -/
def mainWrap (data : Val) : String :=
  match data with
  | .list ds =>
    if ds.all isDictVal then
      "(" ++ (String.intercalate " "
        (ds.map (fun d => "(" ++ (convert d "yaml" none ++ ")"))) ++ ")")
    else "(" ++ (convert data "yaml" none ++ ")")
  | _ => "(" ++ (convert data "yaml" none ++ ")")

/-- The effect trace of main after loading: an unhandled load or parse
error terminates the program before any output is produced; otherwise
the complete S-expression string is built (and pretty-printed when
requested) and only then written, to the output file when one is given.
The result is the list of file writes performed, each a path paired
with the complete content written in one call. -/
def mainModel (loaded : Except String Val) (pretty : Bool) (output : Option String) :
    Except String (List (String × String)) :=
  match loaded with
  | .error e => .error e
  | .ok data =>
    let sexpr := mainWrap data
    let sexpr2 := if pretty then format_sexpr sexpr 2 else sexpr
    match output with
    | some path => .ok [(path, sexpr2)]
    | none => .ok []

/-! ### Helper lemmas -/

theorem strData_append (s t : String) : (s ++ t).data = s.data ++ t.data := rfl

theorem strMk_data (s : String) : String.mk s.data = s := by
  cases s
  rfl

theorem mem_of_containsSub_pair {a b : Char} {l : List Char}
    (h : containsSub [a, b] l = true) : a ∈ l := by
  induction l with
  | nil => simp [containsSub, leadsWith] at h
  | cons c cs ih =>
    rw [containsSub, Bool.or_eq_true] at h
    rcases h with h | h
    · rw [leadsWith, Bool.and_eq_true] at h
      obtain ⟨h1, _⟩ := h
      simp only [decide_eq_true_eq] at h1
      subst h1
      exact List.mem_cons_self _ _
    · exact List.mem_cons_of_mem _ (ih h)

theorem stripNl_decomp (l : List Char) :
    l = stripTrailingNewline l ∨ l = stripTrailingNewline l ++ ['\n'] := by
  induction l using List.reverseRecOn with
  | nil => left; rfl
  | append_singleton xs x _ =>
    unfold stripTrailingNewline
    rw [List.getLast?_concat]
    by_cases hx : x = '\n'
    · subst hx
      rw [if_pos rfl, List.dropLast_concat]
      right
      rfl
    · rw [if_neg (by simp [hx])]
      left
      rfl

theorem stripNl_of_no_newline {l : List Char} (h : '\n' ∉ l) :
    stripTrailingNewline l = l := by
  rcases stripNl_decomp l with hd | hd
  · exact hd.symm
  · exfalso
    apply h
    rw [hd]
    simp

theorem is_iso_date_shape {s : String} (h : is_iso_date s = true) :
    ∃ y1 y2 y3 y4 m1 m2 d1 d2 tail,
      (tail = ([] : List Char) ∨ tail = ['\n']) ∧
      s.data = y1 :: y2 :: y3 :: y4 :: '-' :: m1 :: m2 :: '-' :: d1 :: d2 :: tail ∧
      y1.isDigit = true ∧ y2.isDigit = true ∧ y3.isDigit = true ∧ y4.isDigit = true ∧
      m1.isDigit = true ∧ m2.isDigit = true ∧ d1.isDigit = true ∧ d2.isDigit = true := by
  unfold is_iso_date at h
  split at h
  case _ y1 y2 y3 y4 h1 m1 m2 h2 d1 d2 heq =>
    simp only [Bool.and_eq_true, decide_eq_true_eq] at h
    obtain ⟨⟨⟨⟨⟨⟨⟨⟨⟨hy1, hy2⟩, hy3⟩, hy4⟩, hh1⟩, hm1⟩, hm2⟩, hh2⟩, hd1⟩, hd2⟩ := h
    subst hh1; subst hh2
    rcases stripNl_decomp s.data with hd | hd
    · exact ⟨y1, y2, y3, y4, m1, m2, d1, d2, [], Or.inl rfl,
        by rw [hd, heq], hy1, hy2, hy3, hy4, hm1, hm2, hd1, hd2⟩
    · exact ⟨y1, y2, y3, y4, m1, m2, d1, d2, ['\n'], Or.inr rfl,
        by rw [hd, heq]; rfl, hy1, hy2, hy3, hy4, hm1, hm2, hd1, hd2⟩
  case _ => exact absurd h (by simp)

theorem dash_mem_of_is_iso_date {s : String} (h : is_iso_date s = true) :
    '-' ∈ s.data := by
  obtain ⟨y1, y2, y3, y4, m1, m2, d1, d2, tail, _, hdata, _⟩ := is_iso_date_shape h
  rw [hdata]
  simp

theorem is_iso_date_chars {s : String} (h : is_iso_date s = true) :
    ∀ c ∈ s.data, c.isDigit = true ∨ c = '-' ∨ c = '\n' := by
  obtain ⟨y1, y2, y3, y4, m1, m2, d1, d2, tail, htail, hdata, hy1, hy2, hy3, hy4,
    hm1, hm2, hd1, hd2⟩ := is_iso_date_shape h
  intro c hc
  rw [hdata] at hc
  simp only [List.mem_cons] at hc
  rcases hc with rfl | rfl | rfl | rfl | rfl | rfl | rfl | rfl | rfl | rfl | hc
  · exact Or.inl hy1
  · exact Or.inl hy2
  · exact Or.inl hy3
  · exact Or.inl hy4
  · exact Or.inr (Or.inl rfl)
  · exact Or.inl hm1
  · exact Or.inl hm2
  · exact Or.inr (Or.inl rfl)
  · exact Or.inl hd1
  · exact Or.inl hd2
  · rcases htail with rfl | rfl
    · simp at hc
    · simp only [List.mem_singleton] at hc
      exact Or.inr (Or.inr hc)

theorem splitOnChar_not_mem {sep : Char} {l : List Char} (h : sep ∉ l) :
    splitOnChar sep l = [l] := by
  induction l with
  | nil => rfl
  | cons c cs ih =>
    have hc : c ≠ sep := fun hc => h (hc ▸ List.mem_cons_self _ _)
    have hcs : sep ∉ cs := fun hm => h (List.mem_cons_of_mem _ hm)
    rw [splitOnChar, if_neg hc, ih hcs]

theorem splitOnChar_append_sep {sep : Char} {l : List Char} (rest : List Char)
    (h : sep ∉ l) :
    splitOnChar sep (l ++ sep :: rest) = l :: splitOnChar sep rest := by
  induction l with
  | nil => simp [splitOnChar]
  | cons c cs ih =>
    have hc : c ≠ sep := fun hc => h (hc ▸ List.mem_cons_self _ _)
    have hcs : sep ∉ cs := fun hm => h (List.mem_cons_of_mem _ hm)
    rw [List.cons_append, splitOnChar, if_neg hc, ih hcs]

theorem flatten_map_singleton {l : List Char} (h : ∀ c ∈ l, escChar c = [c]) :
    (l.map escChar).flatten = l := by
  induction l with
  | nil => rfl
  | cons c cs ih =>
    rw [List.map_cons, List.flatten_cons, h c (List.mem_cons_self _ _),
      ih fun d hd => h d (List.mem_cons_of_mem _ hd)]
    rfl

theorem escape_string_id {s : String} (h : ∀ c ∈ s.data, c ≠ '\\' ∧ c ≠ '"') :
    escape_string s = s := by
  unfold escape_string
  rw [flatten_map_singleton, strMk_data]
  intro c hc
  obtain ⟨h1, h2⟩ := h c hc
  unfold escChar
  rw [if_neg h1, if_neg h2]

theorem convertPairs_eq_map (entries : List (String × Val)) (pfx : String) :
    convertPairs entries pfx = entries.map (fun kv =>
      "(" ++ (pfx ++ (":" ++ (kv.1 ++ (" " ++ (convert kv.2 pfx (some kv.1) ++ ")")))))) := by
  induction entries with
  | nil => rfl
  | cons kv rest ih =>
    obtain ⟨k, v⟩ := kv
    rw [convertPairs, List.map_cons, ih]

theorem convertItems_eq_map (xs : List Val) (pfx : String) :
    convertItems xs pfx = xs.map (fun v =>
      "(" ++ (pfx ++ (":item " ++ (convert v pfx none ++ ")")))) := by
  induction xs with
  | nil => rfl
  | cons v rest ih =>
    rw [convertItems, List.map_cons, ih]

/-! ### Claim theorems -/

/-- C1: the specification claims that an explicit json format hint is
accepted by the Loader and routed through the YAML parser path.  The
code contradicts this (and its own docstrings and CLI help, which
advertise JSON support): load_data raises ValueError for fmt equal to
json on every input, as this theorem evaluates. -/
theorem load_data_json_hint_rejected (parseAll : String → Except String (List Val))
    (raw : String) (suffix : String) (enableEnv : Bool) (env : String → Option String) :
    load_data parseAll raw (some "json") suffix enableEnv env
      = .error "Unsupported format or missing format flag." := by
  unfold load_data
  rw [if_neg]
  rintro (h | ⟨h, -⟩)
  · exact absurd (Option.some.injEq .. ▸ h) (by decide)
  · exact Option.noConfusion h

/-- C10: a datetime value (a subclass of the date type, so it is caught
by the isinstance date branch) renders as a make-date form from its
year, month and day only; the time of day is discarded and the output
equals that of the corresponding plain date. -/
theorem convert_datetime_discards_time (y m d hh mi ss : Nat) (pfx : String)
    (pk : Option String) :
    convert (.datetime y m d hh mi ss) pfx pk
      = "(make-date " ++ (toString y ++ (" " ++ (pad2 m ++ (" " ++ (pad2 d ++ ")"))))) ∧
    convert (.datetime y m d hh mi ss) pfx pk = convert (.date y m d) pfx pk :=
  ⟨rfl, rfl⟩

/-- C9: the effect trace of main: a load or parse failure propagates and
no file write happens; on success exactly one write is performed, whose
content is the complete S-expression string (pretty-printed when
requested) built beforehand. -/
theorem main_no_partial_output (e : String) (pretty : Bool) (out : Option String)
    (data : Val) (path : String) :
    mainModel (.error e) pretty out = .error e ∧
    mainModel (.ok data) pretty (some path)
      = .ok [(path, if pretty then format_sexpr (mainWrap data) 2 else mainWrap data)] :=
  ⟨rfl, rfl⟩

/-- C3 counterexample: a mapping that occurs as an element of a sequence
is claimed to have its pair forms space-joined; in the code the
recursive call for sequence elements passes no parent key, so such a
mapping is newline-joined, as this two-key example shows. -/
theorem convert_seq_mapping_newline_cex :
    convert (.list [.dict [("a", .int 1), ("b", .int 2)]]) "yaml" none
      = "(\n(yaml:item (yaml:a 1)\n(yaml:b 2)))" ∧
    convert (.list [.dict [("a", .int 1), ("b", .int 2)]]) "yaml" none
      ≠ "(\n(yaml:item (yaml:a 1) (yaml:b 2)))" := by
  decide

/-- C3 amended: the n pair forms, in stored order, are space-joined
exactly when the mapping is the value of a key in an enclosing mapping
(a parent key is present); they are newline-joined when the mapping is
the document root or an element of a sequence, since the sequence
branch converts each element with no parent key. -/
theorem convert_mapping_join_amended (entries : List (String × Val)) (pfx k : String)
    (pk : Option String) (xs : List Val) :
    convert (.dict entries) pfx (some k)
      = String.intercalate " " (entries.map (fun kv =>
          "(" ++ (pfx ++ (":" ++ (kv.1 ++ (" " ++ (convert kv.2 pfx (some kv.1) ++ ")"))))))) ∧
    convert (.dict entries) pfx none
      = String.intercalate "\n" (entries.map (fun kv =>
          "(" ++ (pfx ++ (":" ++ (kv.1 ++ (" " ++ (convert kv.2 pfx (some kv.1) ++ ")"))))))) ∧
    convert (.list xs) pfx pk
      = "(\n" ++ (String.intercalate "\n" (xs.map (fun v =>
          "(" ++ (pfx ++ (":item " ++ (convert v pfx none ++ ")"))))) ++ ")") := by
  refine ⟨?_, ?_, ?_⟩
  · rw [convert, convertPairs_eq_map]
  · rw [convert, convertPairs_eq_map]
  · rw [convert, convertItems_eq_map]

/-- C4 counterexample: the claim says a string renders as a date
construct exactly when it is four digits, hyphen, two digits, hyphen,
two digits with no other characters; but the Python end anchor also
matches before a trailing newline, so this eleven-character string is
rendered as a date construct too (with the newline leaking into the
day field). -/
theorem convert_date_trailing_newline_cex :
    is_iso_date "2024-03-05\n" = true ∧
    "2024-03-05\n".length = 11 ∧ '\n' ∈ "2024-03-05\n".data ∧
    convert (.str "2024-03-05\n") "yaml" none = "(make-date 2024 03 05\n)" := by
  decide

/-- C2 counterexample: the pretty printer is claimed idempotent on
well-formed parenthesis-balanced input, but on the balanced input
((a)) a second application inserts an extra indented blank line before
the nested opening parenthesis. -/
theorem format_sexpr_not_idempotent_cex :
    format_sexpr "((a))" 2 = "(\n  ( a))" ∧
    format_sexpr (format_sexpr "((a))" 2) 2 = "(\n  \n  ( a))" ∧
    format_sexpr (format_sexpr "((a))" 2) 2 ≠ format_sexpr "((a))" 2 := by
  decide

/-- C5: a string containing both double-brace substrings is always
rendered as an escaped double-quoted string, never as a symbol and
never as a date construct: a brace character cannot occur in a string
accepted by the date regex, so the placeholder check is reached, and it
takes priority over the identifier check. -/
theorem convert_placeholder_always_quoted (s pfx : String) (pk : Option String)
    (h1 : containsSub ['{', '{'] s.data = true)
    (h2 : containsSub ['}', '}'] s.data = true) :
    convert (.str s) pfx pk = "\"" ++ (escape_string s ++ "\"") := by
  have hiso : is_iso_date s = false := by
    cases hE : is_iso_date s
    · rfl
    · exfalso
      rcases is_iso_date_chars hE '{' (mem_of_containsSub_pair h1) with hd | hd | hd
      · exact absurd hd (by decide)
      · exact absurd hd (by decide)
      · exact absurd hd (by decide)
  simp [convert, hiso, h1, h2]

/-- C5 witness: a concrete placeholder-bearing string is rendered as a
quoted string. -/
theorem convert_placeholder_always_quoted_witness :
    containsSub ['{', '{'] "\x7b\x7b X \x7d\x7d".data = true ∧
    containsSub ['}', '}'] "\x7b\x7b X \x7d\x7d".data = true ∧
    convert (.str "\x7b\x7b X \x7d\x7d") "yaml" none = "\"\x7b\x7b X \x7d\x7d\"" := by
  refine ⟨by decide, by decide, ?_⟩
  rw [convert_placeholder_always_quoted "\x7b\x7b X \x7d\x7d" "yaml" none (by decide) (by decide)]
  decide

/-- C6: a nonempty string consisting entirely of word characters is
rendered as a quoted-symbol token (a single leading quote character
followed by the literal text) when it contains at least one digit, and
as a double-quoted string otherwise; word-character strings match
neither the date pattern nor the placeholder test, so these are the
only two possible branches. -/
theorem convert_symbolic_identifier_rendering (s pfx : String) (pk : Option String)
    (hne : s.data ≠ []) (hall : s.data.all isWordChar = true) :
    (s.data.any Char.isDigit = true → convert (.str s) pfx pk = "\x27" ++ s) ∧
    (s.data.any Char.isDigit = false → convert (.str s) pfx pk = "\"" ++ (s ++ "\"")) := by
  have hword : ∀ c ∈ s.data, isWordChar c = true := List.all_eq_true.mp hall
  have hiso : is_iso_date s = false := by
    cases hE : is_iso_date s
    · rfl
    · exact absurd (hword '-' (dash_mem_of_is_iso_date hE)) (by decide)
  have hpl : containsSub ['{', '{'] s.data = false := by
    cases hE : containsSub ['{', '{'] s.data
    · rfl
    · exact absurd (hword '{' (mem_of_containsSub_pair hE)) (by decide)
  have hstrip : stripTrailingNewline s.data = s.data :=
    stripNl_of_no_newline fun hm => absurd (hword '\n' hm) (by decide)
  have hfm : pyWordFullMatch s.data = true := by
    unfold pyWordFullMatch
    rw [hstrip]
    rcases hD : s.data with _ | ⟨c, cs⟩
    · exact absurd hD hne
    · rw [hD] at hall
      exact hall
  constructor
  · intro hdig
    have hsym : is_symbolic_identifier s = true := by
      unfold is_symbolic_identifier
      rw [hfm, hdig]
      rfl
    simp [convert, hiso, hpl, hsym]
  · intro hndig
    have hsym : is_symbolic_identifier s = false := by
      unfold is_symbolic_identifier
      rw [hfm, hndig]
      rfl
    have hesc : escape_string s = s :=
      escape_string_id fun c hc => by
        have hw := hword c hc
        constructor
        · rintro rfl
          exact absurd hw (by decide)
        · rintro rfl
          exact absurd hw (by decide)
    have : convert (.str s) pfx pk = "\"" ++ (escape_string s ++ "\"") := by
      simp [convert, hiso, hpl, hsym]
    rw [this, hesc]

/-- C6 witness: ABC123 is rendered as a quoted symbol and ABC as a
double-quoted string. -/
theorem convert_symbolic_identifier_rendering_witness :
    "ABC123".data ≠ [] ∧ "ABC123".data.all isWordChar = true ∧
    "ABC123".data.any Char.isDigit = true ∧ "ABC".data.any Char.isDigit = false ∧
    convert (.str "ABC123") "yaml" none = "\x27ABC123" ∧
    convert (.str "ABC") "yaml" none = "\"ABC\"" := by
  refine ⟨by decide, by decide, by decide, by decide, ?_, ?_⟩
  · rw [(convert_symbolic_identifier_rendering "ABC123" "yaml" none (by decide)
      (by decide)).1 (by decide)]
    decide
  · rw [(convert_symbolic_identifier_rendering "ABC" "yaml" none (by decide)
      (by decide)).2 (by decide)]
    decide

/-- C7: a string that falls through to the plain-string case is emitted
double-quoted with exactly the claimed per-character escaping: each
backslash becomes two backslashes, each double quote becomes backslash
quote, and every other character (including embedded newlines) is
passed through unchanged. -/
theorem convert_plain_string_escaping (s pfx : String) (pk : Option String)
    (h1 : is_iso_date s = false)
    (h2 : (containsSub ['{', '{'] s.data && containsSub ['}', '}'] s.data) = false)
    (h3 : is_symbolic_identifier s = false) :
    convert (.str s) pfx pk = "\"" ++ (escape_string s ++ "\"") ∧
    escape_string s = String.mk ((s.data.map escChar).flatten) ∧
    escChar '\\' = ['\\', '\\'] ∧
    escChar '"' = ['\\', '"'] ∧
    ∀ c : Char, c ≠ '\\' → c ≠ '"' → escChar c = [c] := by
  refine ⟨by simp [convert, h1, h2, h3], rfl, by decide, by decide, ?_⟩
  intro c hc1 hc2
  unfold escChar
  rw [if_neg hc1, if_neg hc2]

/-- C7 witness: a concrete string with a quote, a backslash and a
newline is escaped exactly as claimed, the newline passing through
literally. -/
theorem convert_plain_string_escaping_witness :
    is_iso_date "a\"b\\c\nd" = false ∧
    (containsSub ['{', '{'] "a\"b\\c\nd".data &&
      containsSub ['}', '}'] "a\"b\\c\nd".data) = false ∧
    is_symbolic_identifier "a\"b\\c\nd" = false ∧
    convert (.str "a\"b\\c\nd") "yaml" none = "\"a\\\"b\\\\c\nd\"" := by
  refine ⟨by decide, by decide, by decide, ?_⟩
  rw [(convert_plain_string_escaping "a\"b\\c\nd" "yaml" none (by decide) (by decide)
    (by decide)).1]
  decide

theorem digit_ne_dash {c : Char} (h : c.isDigit = true) : c ≠ '-' := by
  rintro rfl
  exact absurd h (by decide)

/-- C4 amended: a string scalar is rendered as a date construct exactly
when the date regex accepts it, which (by Python end-anchor semantics)
means four digits, hyphen, two digits, hyphen, two digits, optionally
followed by one trailing newline; the exact ten-character match and a
native date both render 2024-03-05 as exactly (make-date 2024 03 05),
the native path zero-padding month and day. -/
theorem convert_date_rendering_amended (s pfx : String) (pk : Option String) :
    ((∃ rest : String, convert (.str s) pfx pk = "(make-date " ++ rest)
      ↔ is_iso_date s = true) ∧
    convert (.str "2024-03-05") pfx pk = "(make-date 2024 03 05)" ∧
    convert (.date 2024 3 5) pfx pk = "(make-date 2024 03 05)" := by
  refine ⟨⟨?_, ?_⟩, ?_, ?_⟩
  · rintro ⟨rest, hr⟩
    cases E : is_iso_date s
    · exfalso
      have hconv : convert (.str s) pfx pk = "\"" ++ (escape_string s ++ "\"") ∨
          convert (.str s) pfx pk = "\x27" ++ s := by
        cases hb : (containsSub ['{', '{'] s.data && containsSub ['}', '}'] s.data) with
        | true => exact Or.inl (by simp [convert, E, hb])
        | false =>
          cases hsym : is_symbolic_identifier s with
          | true => exact Or.inr (by simp [convert, E, hb, hsym])
          | false => exact Or.inl (by simp [convert, E, hb, hsym])
      have e2 : ("(make-date " : String).data = '(' :: "make-date ".data := by decide
      rcases hconv with hc | hc <;> rw [hc] at hr <;>
        have hd := congrArg String.data hr <;>
        simp only [strData_append, e2, List.cons_append] at hd
      · exact absurd (List.cons.inj hd).1 (by decide)
      · exact absurd (List.cons.inj hd).1 (by decide)
    · rfl
  · intro h
    obtain ⟨y1, y2, y3, y4, m1, m2, d1, d2, tail, htail, hdata, hy1, hy2, hy3, hy4,
      hm1, hm2, hd1, hd2⟩ := is_iso_date_shape h
    have hsplit : splitOnChar '-' s.data = [[y1, y2, y3, y4], [m1, m2], d1 :: d2 :: tail] := by
      rw [hdata]
      rw [show y1 :: y2 :: y3 :: y4 :: '-' :: m1 :: m2 :: '-' :: d1 :: d2 :: tail
        = [y1, y2, y3, y4] ++ '-' :: ([m1, m2] ++ '-' :: (d1 :: d2 :: tail)) from rfl]
      rw [splitOnChar_append_sep _ (by
        simp only [List.mem_cons, List.not_mem_nil, or_false]
        rintro (hc | hc | hc | hc) <;>
          first
          | exact digit_ne_dash hy1 hc.symm
          | exact digit_ne_dash hy2 hc.symm
          | exact digit_ne_dash hy3 hc.symm
          | exact digit_ne_dash hy4 hc.symm)]
      rw [splitOnChar_append_sep _ (by
        simp only [List.mem_cons, List.not_mem_nil, or_false]
        rintro (hc | hc) <;>
          first
          | exact digit_ne_dash hm1 hc.symm
          | exact digit_ne_dash hm2 hc.symm)]
      rw [splitOnChar_not_mem (by
        simp only [List.mem_cons]
        rintro (hc | hc | hc)
        · exact digit_ne_dash hd1 hc.symm
        · exact digit_ne_dash hd2 hc.symm
        · rcases htail with rfl | rfl
          · simp at hc
          · simp only [List.mem_singleton] at hc
            exact absurd hc.symm (by decide))]
    have hc : convert (.str s) pfx pk = dateStringForm s := by
      simp [convert, h]
    rw [hc]
    unfold dateStringForm
    rw [hsplit]
    exact ⟨_, rfl⟩
  · have hc : convert (.str "2024-03-05") pfx pk = dateStringForm "2024-03-05" := by
      simp [convert, show is_iso_date "2024-03-05" = true by decide]
    rw [hc]
    decide
  · show "(make-date " ++ (toString 2024 ++ (" " ++ (pad2 3 ++ (" " ++ (pad2 5 ++ ")")))))
      = "(make-date 2024 03 05)"
    decide

/-- C4 amended witness: an accepted ten-character date string yields a
make-date form, and the concrete round trip of 2024-03-05 holds. -/
theorem convert_date_rendering_amended_witness :
    (∃ rest : String, convert (.str "1999-12-31") "yaml" none = "(make-date " ++ rest) ∧
    convert (.str "2024-03-05") "yaml" none = "(make-date 2024 03 05)" := by
  refine ⟨?_, (convert_date_rendering_amended "2024-03-05" "yaml" none).2.1⟩
  exact (convert_date_rendering_amended "1999-12-31" "yaml" none).1.mpr (by decide)

theorem substCore_cons_ne (env : String → Option String) {c : Char} (cs : List Char)
    (hc : c ≠ '$') : substCore env (c :: cs) = c :: substCore env cs := by
  cases cs with
  | nil => simp [substCore, hc]
  | cons d ds => simp [substCore, hc]

theorem substCore_no_dollar (env : String → Option String) {l : List Char}
    (hl : '$' ∉ l) : substCore env l = l := by
  induction l with
  | nil => simp [substCore]
  | cons c cs ih =>
    have hc : c ≠ '$' := fun h => hl (h ▸ List.mem_cons_self _ _)
    rw [substCore_cons_ne env cs hc, ih fun hm => hl (List.mem_cons_of_mem _ hm)]

theorem substName_word_append (env : String → Option String) (nm : List Char) :
    ∀ (acc rest : List Char), (∀ x ∈ nm, isWordChar x = true) →
    acc.reverse ++ nm ≠ [] →
    substName env (nm ++ '}' :: rest) acc
      = ((env (String.mk (acc.reverse ++ nm))).getD "").data ++ substCore env rest := by
  induction nm with
  | nil =>
    intro acc rest _ hne
    rw [List.nil_append, List.append_nil]
    rw [List.append_nil] at hne
    have hacc : acc ≠ [] := fun h => hne (by rw [h]; rfl)
    obtain ⟨a, as, rfl⟩ := List.exists_cons_of_ne_nil hacc
    rw [substName.eq_def]
    dsimp only
    rw [if_neg (by decide), if_pos rfl]
  | cons w ws ih =>
    intro acc rest hword hne
    have hw : isWordChar w = true := hword w (List.mem_cons_self _ _)
    rw [List.cons_append, substName.eq_def]
    dsimp only
    rw [if_pos hw]
    rw [ih (w :: acc) rest (fun x hx => hword x (List.mem_cons_of_mem _ hx)) (by simp)]
    rw [List.reverse_cons, List.append_assoc, List.singleton_append]

/-- C8: with environment substitution enabled, the raw text transform
replaces every dollar-brace NAME brace occurrence (NAME one or more
word characters) by the looked-up value of NAME, the empty string when
NAME is unset; any character that does not open such an occurrence is
passed through, and text containing no dollar sign is left unchanged.
The environment is an injected lookup function. -/
theorem substitute_env_variables_spec (env : String → Option String) (name : String)
    (content : String) (rest : List Char) (c : Char) (cs l : List Char)
    (hne : name.data ≠ []) (hword : name.data.all isWordChar = true)
    (hc : c ≠ '$') (hl : '$' ∉ l) :
    substCore env ('$' :: '{' :: (name.data ++ '}' :: rest))
      = ((env name).getD "").data ++ substCore env rest ∧
    substCore env (c :: cs) = c :: substCore env cs ∧
    substCore env l = l ∧
    substitute_env_variables env content = String.mk (substCore env content.data) := by
  refine ⟨?_, substCore_cons_ne env cs hc, substCore_no_dollar env hl, rfl⟩
  have h0 : substCore env ('$' :: '{' :: (name.data ++ '}' :: rest))
      = substName env (name.data ++ '}' :: rest) [] := by
    simp [substCore]
  rw [h0, substName_word_append env name.data [] rest (List.all_eq_true.mp hword)
    (by simpa using hne)]
  rw [List.reverse_nil, List.nil_append, strMk_data]

/-- C8 witness: substituting a set variable HOME and passing a plain
character through, at concrete inputs. -/
theorem substitute_env_variables_spec_witness :
    "HOME".data ≠ [] ∧ "HOME".data.all isWordChar = true ∧
    substCore (fun n => if n = "HOME" then some "/root" else none)
        ('$' :: '{' :: ("HOME".data ++ '}' :: "x".data))
      = "/root".data ++ substCore (fun n => if n = "HOME" then some "/root" else none)
          "x".data := by
  refine ⟨by decide, by decide, ?_⟩
  have h := (substitute_env_variables_spec
    (fun n => if n = "HOME" then some "/root" else none) "HOME" "" "x".data 'a' [] []
    (by decide) (by decide) (by decide) (by decide)).1
  rw [h]
  simp

theorem dropWhile_head_false {p : Char → Bool} {c : Char} {cs : List Char} :
    ∀ {l : List Char}, l.dropWhile p = c :: cs → p c = false := by
  intro l
  induction l with
  | nil => intro h; exact absurd h (by simp)
  | cons a l' ih =>
    intro h
    rw [List.dropWhile_cons] at h
    by_cases ha : p a = true
    · rw [if_pos ha] at h
      exact ih h
    · rw [if_neg ha] at h
      obtain ⟨rfl, -⟩ := List.cons.inj h
      exact Bool.eq_false_iff.mpr ha

theorem dropWhile_suffix_decomp (p : Char → Bool) :
    ∀ l : List Char, ∃ t, t ++ l.dropWhile p = l := by
  intro l
  induction l with
  | nil => exact ⟨[], rfl⟩
  | cons a l' ih =>
    by_cases ha : p a = true
    · obtain ⟨t, ht⟩ := ih
      exact ⟨a :: t, by rw [List.dropWhile_cons, if_pos ha, List.cons_append, ht]⟩
    · exact ⟨[], by rw [List.dropWhile_cons, if_neg ha, List.nil_append]⟩

theorem pyStrip_mem {l : List Char} : ∀ c ∈ pyStrip l, c ∈ l := by
  intro c hc
  unfold pyStrip at hc
  rw [List.mem_reverse] at hc
  obtain ⟨t2, ht2⟩ := dropWhile_suffix_decomp wsChar ((l.dropWhile wsChar).reverse)
  have h2 : c ∈ (l.dropWhile wsChar).reverse := ht2 ▸ List.mem_append_right t2 hc
  rw [List.mem_reverse] at h2
  obtain ⟨t1, ht1⟩ := dropWhile_suffix_decomp wsChar l
  exact ht1 ▸ List.mem_append_right t1 h2

theorem pyStrip_head_false {l : List Char} {c : Char} {cs : List Char}
    (h : pyStrip l = c :: cs) : wsChar c = false := by
  unfold pyStrip at h
  have hB : (l.dropWhile wsChar).reverse.dropWhile wsChar = (c :: cs).reverse := by
    rw [← h, List.reverse_reverse]
  obtain ⟨t2, ht2⟩ := dropWhile_suffix_decomp wsChar ((l.dropWhile wsChar).reverse)
  have hA : l.dropWhile wsChar = (c :: cs) ++ t2.reverse := by
    have h3 : l.dropWhile wsChar = (t2 ++ (l.dropWhile wsChar).reverse.dropWhile wsChar).reverse := by
      rw [ht2, List.reverse_reverse]
    rw [h3, hB, List.reverse_append, List.reverse_reverse]
  rw [List.cons_append] at hA
  exact dropWhile_head_false hA

theorem pyStrip_last_false {l : List Char} {c : Char}
    (h : (pyStrip l).getLast? = some c) : wsChar c = false := by
  unfold pyStrip at h
  rw [List.getLast?_reverse] at h
  cases hB : (l.dropWhile wsChar).reverse.dropWhile wsChar with
  | nil => rw [hB] at h; exact Option.noConfusion h
  | cons d ds =>
    rw [hB, List.head?_cons] at h
    obtain rfl := Option.some.inj h
    exact dropWhile_head_false hB

theorem pyStrip_fixed {t : List Char}
    (hh : ∀ c cs, t = c :: cs → wsChar c = false)
    (hl : ∀ d, t.getLast? = some d → wsChar d = false) :
    pyStrip t = t := by
  cases t with
  | nil => rfl
  | cons c cs =>
    have hc := hh c cs rfl
    unfold pyStrip
    rw [List.dropWhile_cons, if_neg (by simp [hc])]
    cases hrev : (c :: cs).reverse with
    | nil => exact absurd hrev (by simp)
    | cons d ds =>
      have hd : wsChar d = false := by
        apply hl
        rw [← List.head?_reverse, hrev, List.head?_cons]
      rw [List.dropWhile_cons, if_neg (by simp [hd]), ← hrev, List.reverse_reverse]

theorem pyStrip_pyStrip (l : List Char) : pyStrip (pyStrip l) = pyStrip l :=
  pyStrip_fixed (fun _ _ h => pyStrip_head_false h) (fun _ h => pyStrip_last_false h)

theorem pyStrip_cons_ws {x : Char} (hx : wsChar x = true) (t : List Char) :
    pyStrip (x :: t) = pyStrip t := by
  unfold pyStrip
  rw [List.dropWhile_cons, if_pos hx]

theorem fmtLoop_others (ind : Nat) (mid : List Char)
    (hmid : ∀ c ∈ mid, c ≠ '(' ∧ c ≠ ')' ∧ c ≠ '\n') :
    ∀ (rest : List Char) (depth : Int) (token acc : List Char),
    fmtLoop ind (mid ++ rest) depth token acc = fmtLoop ind rest depth (token ++ mid) acc := by
  induction mid with
  | nil => intro rest depth token acc; rw [List.nil_append, List.append_nil]
  | cons c mid' ih =>
    intro rest depth token acc
    obtain ⟨h1, h2, h3⟩ := hmid c (List.mem_cons_self _ _)
    rw [List.cons_append]
    simp only [fmtLoop]
    rw [if_neg h1, if_neg h2, if_neg h3]
    rw [ih (fun d hd => hmid d (List.mem_cons_of_mem _ hd)) rest depth (token ++ [c]) acc]
    rw [List.append_assoc, List.singleton_append]

theorem fmtLoop_flat_compute (ind : Nat) (mid : List Char)
    (hmid : ∀ c ∈ mid, c ≠ '(' ∧ c ≠ ')' ∧ c ≠ '\n') :
    fmtLoop ind ('(' :: (mid ++ [')'])) 0 [] []
      = '\n' :: '(' :: ((if pyStrip mid = [] then [] else ' ' :: pyStrip mid) ++ [')']) := by
  have hstep1 : fmtLoop ind ('(' :: (mid ++ [')'])) 0 [] []
      = fmtLoop ind (mid ++ [')']) 1 [] ['\n', '('] := by
    simp [fmtLoop, pyStrip, indentSpaces]
  rw [hstep1, fmtLoop_others ind mid hmid [')'] 1 [] ['\n', '('], List.nil_append]
  simp only [fmtLoop]
  by_cases hE : pyStrip mid = [] <;> simp [hE]

theorem pyStrip_newline_paren (X : List Char) :
    pyStrip ('\n' :: '(' :: (X ++ [')'])) = '(' :: (X ++ [')'])  := by
  unfold pyStrip
  rw [List.dropWhile_cons, if_pos (by decide), List.dropWhile_cons, if_neg (by decide)]
  rw [show '(' :: (X ++ [')']) = ('(' :: X) ++ [')'] from rfl]
  rw [List.reverse_append, List.reverse_singleton, List.singleton_append]
  rw [List.dropWhile_cons, if_neg (by decide)]
  rw [show ')' :: ('(' :: X).reverse = ([')'] ++ ('(' :: X).reverse) from rfl]
  rw [List.reverse_append, List.reverse_reverse, List.reverse_singleton]

theorem format_sexpr_flat (s : String) (mid : List Char) (ind : Nat)
    (hs : s.data = '(' :: (mid ++ [')']))
    (hmid : ∀ c ∈ mid, c ≠ '(' ∧ c ≠ ')' ∧ c ≠ '\n') :
    format_sexpr s ind
      = String.mk ('(' :: ((if pyStrip mid = [] then [] else ' ' :: pyStrip mid) ++ [')'])) := by
  unfold format_sexpr
  rw [hs, fmtLoop_flat_compute ind mid hmid, pyStrip_newline_paren]

/-- C2 amended: the pretty printer is not idempotent on general
well-formed balanced input (re-formatting inserts an extra indented
blank line before every nested opening parenthesis); it is idempotent
on a single flat parenthesized expression, that is, input consisting of
one opening parenthesis, body text free of parentheses and newlines,
and one closing parenthesis. -/
theorem format_sexpr_idempotent_flat (s : String) (mid : List Char) (ind : Nat)
    (hs : s.data = '(' :: (mid ++ [')']))
    (hmid : ∀ c ∈ mid, c ≠ '(' ∧ c ≠ ')' ∧ c ≠ '\n') :
    format_sexpr (format_sexpr s ind) ind = format_sexpr s ind := by
  have h1 := format_sexpr_flat s mid ind hs hmid
  set X := if pyStrip mid = [] then ([] : List Char) else ' ' :: pyStrip mid with hX
  have hX_ok : ∀ c ∈ X, c ≠ '(' ∧ c ≠ ')' ∧ c ≠ '\n' := by
    intro c hc
    rw [hX] at hc
    by_cases hE : pyStrip mid = []
    · rw [if_pos hE] at hc
      exact absurd hc (by simp)
    · rw [if_neg hE] at hc
      rcases List.mem_cons.mp hc with rfl | hc2
      · exact ⟨by decide, by decide, by decide⟩
      · exact hmid c (pyStrip_mem c hc2)
  have h2 := format_sexpr_flat (String.mk ('(' :: (X ++ [')']))) X ind rfl hX_ok
  have hXX : (if pyStrip X = [] then ([] : List Char) else ' ' :: pyStrip X) = X := by
    by_cases hE : pyStrip mid = []
    · rw [hX, if_pos hE]
      rw [show pyStrip [] = [] from rfl, if_pos rfl]
    · rw [hX, if_neg hE]
      have hsp : pyStrip (' ' :: pyStrip mid) = pyStrip mid := by
        rw [pyStrip_cons_ws (by decide), pyStrip_pyStrip]
      rw [hsp, if_neg hE]
  rw [h1, h2, hXX]

/-- C2 amended witness: idempotence at the concrete flat input (a b). -/
theorem format_sexpr_idempotent_flat_witness :
    format_sexpr (format_sexpr "(a b)" 2) 2 = format_sexpr "(a b)" 2 :=
  format_sexpr_idempotent_flat "(a b)" ['a', ' ', 'b'] 2 (by decide) (by decide)

end YamlToSexpr
